import Mathlib

/-!
Verification development for the ai_agents repository.

Shallow embedding of the core subsystems the specification describes:
the tool-call repair module (src/byom/tools/tool_call_parser.py), the
thinking-tag filter (src/byom/providers/base.py), the streaming client
(clients/llm_client.py), the agent orchestrator loop (agents/agents.py)
and the provider registry (src/byom/providers/registry.py).

Machine-level conventions: Python strings are Lean strings, scanners
work over lists of characters, fallible operations return Option, and
Python dictionaries are association lists that preserve insertion order.
-/

set_option maxRecDepth 10000

/-- Structured value produced by the Python json module.  Numbers keep
their decimal lexeme (the claims never compare numeric magnitudes of
distinct lexemes). -/
inductive Json where
  | null
  | bool (b : Bool)
  | num (lexeme : String)
  | str (s : String)
  | arr (elems : List Json)
  | obj (fields : List (String × Json))
deriving Repr

/-- True exactly on the keyed-mapping (dict) constructor. -/
def Json.isObj : Json → Bool
  | .obj _ => true
  | _ => false

/-- The apostrophe character (single quote). -/
def singleQuoteChar : Char := Char.ofNat 39

/-- Whitespace characters accepted by the JSON grammar. -/
def jsonWs (c : Char) : Bool :=
  c = ' ' || c = '\t' || c = '\n' || c = '\r'

/-- Whitespace stripped by Python str.strip (ASCII range). -/
def pyWs (c : Char) : Bool :=
  c = ' ' || c = '\t' || c = '\n' || c = '\r' || c = '\x0b' || c = '\x0c'

/-- Whitespace matched by the regex class backslash-s (ASCII range). -/
def reWs (c : Char) : Bool :=
  c = ' ' || c = '\t' || c = '\n' || c = '\r' || c = '\x0b' || c = '\x0c'

def pyStripList (l : List Char) : List Char :=
  ((l.dropWhile pyWs).reverse.dropWhile pyWs).reverse

/-- Python str.strip with no argument. -/
def pyStrip (s : String) : String :=
  String.mk (pyStripList s.toList)

def skipJsonWs (l : List Char) : List Char :=
  l.dropWhile jsonWs

def hexDigitVal (c : Char) : Option Nat :=
  let n := c.toNat
  if 48 ≤ n && n ≤ 57 then some (n - 48)
  else if 97 ≤ n && n ≤ 102 then some (n - 87)
  else if 65 ≤ n && n ≤ 70 then some (n - 55)
  else none

/-- Body of a JSON string literal, after the opening quote; returns the
decoded characters and the input following the closing quote. -/
def parseJsonStringBody : Nat → List Char → Option (List Char × List Char)
  | 0, _ => none
  | _ + 1, [] => none
  | fuel + 1, c :: r =>
    if c = '"' then some ([], r)
    else if c = '\\' then
      match r with
      | [] => none
      | e :: r2 =>
        let simpleEsc : Option Char :=
          if e = '"' then some '"'
          else if e = '\\' then some '\\'
          else if e = '/' then some '/'
          else if e = 'b' then some '\x08'
          else if e = 'f' then some '\x0c'
          else if e = 'n' then some '\n'
          else if e = 'r' then some '\r'
          else if e = 't' then some '\t'
          else none
        match simpleEsc with
        | some ch =>
          (parseJsonStringBody fuel r2).map (fun p => (ch :: p.1, p.2))
        | none =>
          if e = 'u' then
            match r2 with
            | h1 :: h2 :: h3 :: h4 :: r3 =>
              match hexDigitVal h1, hexDigitVal h2, hexDigitVal h3, hexDigitVal h4 with
              | some a, some b, some d, some f =>
                let code := ((a * 16 + b) * 16 + d) * 16 + f
                (parseJsonStringBody fuel r3).map
                  (fun p => (Char.ofNat code :: p.1, p.2))
              | _, _, _, _ => none
            | _ => none
          else none
    else if c.toNat < 32 then none
    else (parseJsonStringBody fuel r).map (fun p => (c :: p.1, p.2))

/-- JSON number lexeme: optional minus, integer part without leading
zeros, optional fraction, optional exponent. -/
def parseJsonNumber (l : List Char) : Option (List Char × List Char) :=
  let (sign, r1) :=
    match l with
    | '-' :: r => ([ '-' ], r)
    | _ => ([], l)
  match r1 with
  | [] => none
  | c :: r2 =>
    if c = '0' then
      let intPart := [c]
      let rest := r2
      (parseJsonNumberTail (sign ++ intPart) rest)
    else if c.isDigit then
      let ds := r2.takeWhile Char.isDigit
      let rest := r2.dropWhile Char.isDigit
      (parseJsonNumberTail (sign ++ c :: ds) rest)
    else none
where
  parseJsonNumberTail (pre : List Char) (rest : List Char) :
      Option (List Char × List Char) :=
    let (frac, r3) :=
      match rest with
      | '.' :: r =>
        let ds := r.takeWhile Char.isDigit
        if ds = [] then ([], rest) else ('.' :: ds, r.dropWhile Char.isDigit)
      | _ => ([], rest)
    let startsDot : Bool := match rest with | '.' :: _ => true | _ => false
    if frac = [] && startsDot then
      none
    else
      match r3 with
      | e :: r4 =>
        if e = 'e' || e = 'E' then
          let (es, r5) :=
            match r4 with
            | '+' :: r => ([ '+' ], r)
            | '-' :: r => ([ '-' ], r)
            | _ => ([], r4)
          let ds := r5.takeWhile Char.isDigit
          if ds = [] then none
          else some (pre ++ frac ++ e :: es ++ ds, r5.dropWhile Char.isDigit)
        else some (pre ++ frac, r3)
      | [] => some (pre ++ frac, [])

/-- Bundle of the mutually recursive productions of the JSON grammar,
closed under one fuel level; recursion on the fuel is structural so that
concrete parses reduce definitionally. -/
structure JsonProductions where
  value : List Char → Option (Json × List Char)
  members : List Char → List (String × Json) → Option (Json × List Char)
  elems : List Char → List Json → Option (Json × List Char)

def jsonProductions : Nat → JsonProductions
  | 0 => ⟨fun _ => none, fun _ _ => none, fun _ _ => none⟩
  | fuel + 1 =>
    let p := jsonProductions fuel
    { value := fun input =>
        let l := skipJsonWs input
        match l with
        | [] => none
        | c :: r =>
          if c = '"' then
            (parseJsonStringBody (r.length + 1) r).map
              (fun q => (Json.str (String.mk q.1), q.2))
          else if c = '{' then
            match skipJsonWs r with
            | '}' :: r2 => some (.obj [], r2)
            | r2 => p.members r2 []
          else if c = '[' then
            match skipJsonWs r with
            | ']' :: r2 => some (.arr [], r2)
            | r2 => p.elems r2 []
          else if List.isPrefixOf "true".toList l then some (.bool true, l.drop 4)
          else if List.isPrefixOf "false".toList l then some (.bool false, l.drop 5)
          else if List.isPrefixOf "null".toList l then some (.null, l.drop 4)
          else if List.isPrefixOf "NaN".toList l then some (.num "NaN", l.drop 3)
          else if List.isPrefixOf "Infinity".toList l then
            some (.num "Infinity", l.drop 8)
          else if List.isPrefixOf "-Infinity".toList l then
            some (.num "-Infinity", l.drop 9)
          else
            (parseJsonNumber l).map (fun q => (Json.num (String.mk q.1), q.2)),
      members := fun input acc =>
        match skipJsonWs input with
        | '"' :: r =>
          match parseJsonStringBody (r.length + 1) r with
          | none => none
          | some (key, r2) =>
            match skipJsonWs r2 with
            | ':' :: r3 =>
              match p.value r3 with
              | none => none
              | some (v, r4) =>
                match skipJsonWs r4 with
                | ',' :: r5 => p.members r5 (acc ++ [(String.mk key, v)])
                | '}' :: r5 => some (.obj (acc ++ [(String.mk key, v)]), r5)
                | _ => none
            | _ => none
        | _ => none,
      elems := fun input acc =>
        match p.value input with
        | none => none
        | some (v, r) =>
          match skipJsonWs r with
          | ',' :: r2 => p.elems r2 (acc ++ [v])
          | ']' :: r2 => some (.arr (acc ++ [v]), r2)
          | _ => none }

def parseJsonValue (fuel : Nat) (l : List Char) : Option (Json × List Char) :=
  (jsonProductions fuel).value l

/-- Python json.loads: parse one value and require only whitespace after
it; the result is None exactly when json.loads raises JSONDecodeError. -/
def json_loads (s : String) : Option Json :=
  let l := s.toList
  match parseJsonValue (2 * l.length + 4) l with
  | some (v, rest) => if skipJsonWs rest = [] then some v else none
  | none => none

example : json_loads "[1, 2]" = some (.arr [.num "1", .num "2"]) := by rfl
example : json_loads "\x7b\"q\":\"x\"\x7d" =
    some (.obj [("q", .str "x")]) := by rfl
example : json_loads "\x7b\"a\": \"\x7bb: 1\x7d\"\x7d" =
    some (.obj [("a", .str "\x7bb: 1\x7d")]) := by rfl
example : json_loads "\x7b\"a\": \"\x7b\"b\": 1\x7d\"\x7d" = none := by rfl
example : json_loads "" = none := by rfl
example : json_loads "\x7b\"a\": 1,\x7d" = none := by rfl

/-! ## Tool-call repair module (src/byom/tools/tool_call_parser.py) -/

/-- Regex substitution of a comma, optional whitespace and a closing
delimiter by the closing delimiter alone (the two trailing-comma rules
of repair_json); scans left to right, non-overlapping. -/
def subTrailingComma (close : Char) : Nat → List Char → List Char
  | 0, l => l
  | _ + 1, [] => []
  | fuel + 1, c :: r =>
    if c = ',' then
      match r.dropWhile reWs with
      | b :: r3 =>
        if b = close then close :: subTrailingComma close fuel r3
        else c :: subTrailingComma close fuel r
      | [] => c :: subTrailingComma close fuel r
    else c :: subTrailingComma close fuel r

def identHeadChar (c : Char) : Bool :=
  c.isAlpha || c = '_'

def identChar (c : Char) : Bool :=
  c.isAlphanum || c = '_'

/-- Regex substitution quoting bare object keys: an opening brace or a
comma, optional whitespace, an identifier, optional whitespace and a
colon are rewritten to the delimiter, the quoted identifier and the
colon. -/
def quoteBareKeys : Nat → List Char → List Char
  | 0, l => l
  | _ + 1, [] => []
  | fuel + 1, c :: r =>
    if c = '{' || c = ',' then
      match r.dropWhile reWs with
      | h :: t =>
        if identHeadChar h then
          let ident := h :: t.takeWhile identChar
          let r2 := t.dropWhile identChar
          match r2.dropWhile reWs with
          | ':' :: r4 =>
            c :: '"' :: (ident ++ '"' :: ':' :: quoteBareKeys fuel r4)
          | _ => c :: quoteBareKeys fuel r
        else c :: quoteBareKeys fuel r
      | [] => c :: quoteBareKeys fuel r
    else c :: quoteBareKeys fuel r

/-- Python str.replace of the two-character sequence backslash-n by one
space, left to right, non-overlapping. -/
def collapseEscapedNewlines : Nat → List Char → List Char
  | 0, l => l
  | _ + 1, [] => []
  | fuel + 1, c :: r =>
    match c, r with
    | '\\', 'n' :: r2 => ' ' :: collapseEscapedNewlines fuel r2
    | _, _ => c :: collapseEscapedNewlines fuel r

def isControlByte (c : Char) : Bool :=
  decide (c.toNat ≤ 31) || c.toNat == 127

/-- repair_json from tool_call_parser.py: quote-style normalization,
trailing-comma removal, bare-key quoting, brace and bracket balancing,
control-character removal and escaped-newline collapsing, in the order
of the source. -/
def repair_json (s : String) : String :=
  if s = "" || pyStrip s = "" then "\x7b\x7d"
  else
    let l0 := s.toList
    let l1 :=
      if l0.contains singleQuoteChar && !(l0.contains '"') then
        l0.map (fun c => if c = singleQuoteChar then '"' else c)
      else l0
    let l2 := subTrailingComma '}' l1.length l1
    let l3 := subTrailingComma ']' l2.length l2
    let l4 := quoteBareKeys l3.length l3
    let openBraces := l4.count '{' - l4.count '}'
    let openBrackets := l4.count '[' - l4.count ']'
    let l5 := l4 ++ List.replicate openBraces '}' ++ List.replicate openBrackets ']'
    let l6 := l5.filter (fun c => !(isControlByte c))
    let l7 := collapseEscapedNewlines l6.length l6
    String.mk l7

/-- The regex search for an outermost brace-delimited span (strategy 3
of parse_json_safe): from the first opening brace to the last closing
brace, when the latter comes after the former. -/
def extractBraceSpan (s : String) : Option String :=
  let l := s.toList
  match l.findIdx? (fun c => c = '{'), l.reverse.findIdx? (fun c => c = '}') with
  | some i, some jr =>
    let j := l.length - 1 - jr
    if i < j then some (String.mk ((l.drop i).take (j - i + 1))) else none
  | _, _ => none

def heuristicValChar (c : Char) : Bool :=
  !(c = ',' || c = '}' || c = ']')

/-- Python int() on a stripped token: optional sign, digits with single
underscores between digits. -/
def parseDigitsU : List Char → Option (List Char × List Char)
  | [] => none
  | c :: r =>
    if c.isDigit then
      match parseDigitsUCont r with
      | (ds, rest) => some (c :: ds, rest)
    else none
where
  parseDigitsUCont : List Char → List Char × List Char
    | '_' :: d :: r =>
      if d.isDigit then
        match parseDigitsUCont r with
        | (ds, rest) => (d :: ds, rest)
      else ([], '_' :: d :: r)
    | d :: r =>
      if d.isDigit then
        match parseDigitsUCont r with
        | (ds, rest) => (d :: ds, rest)
      else ([], d :: r)
    | [] => ([], [])

def digitsToNat (ds : List Char) : Nat :=
  ds.foldl (fun acc c => acc * 10 + (c.toNat - '0'.toNat)) 0

def pyIntOfToken (l : List Char) : Option Int :=
  let (neg, r) :=
    match l with
    | '+' :: r => (false, r)
    | '-' :: r => (true, r)
    | _ => (false, l)
  match parseDigitsU r with
  | some (ds, []) =>
    some (if neg then -(digitsToNat ds : Int) else (digitsToNat ds : Int))
  | _ => none

/-- Python float() acceptance on a stripped token that contains a dot:
optional sign, digits around one dot with at least one digit, optional
exponent; underscores permitted between digits. -/
def pyFloatTokenOk (l : List Char) : Bool :=
  let r :=
    match l with
    | '+' :: r => r
    | '-' :: r => r
    | _ => l
  let (intDs, r1) :=
    match parseDigitsU r with
    | some (ds, rest) => (ds, rest)
    | none => ([], r)
  match r1 with
  | '.' :: r2 =>
    let (fracDs, r3) :=
      match parseDigitsU r2 with
      | some (ds, rest) => (ds, rest)
      | none => ([], r2)
    if intDs = [] && fracDs = [] then false
    else
      match r3 with
      | [] => true
      | e :: r4 =>
        if e = 'e' || e = 'E' then
          let r5 :=
            match r4 with
            | '+' :: r => r
            | '-' :: r => r
            | _ => r4
          match parseDigitsU r5 with
          | some (_, []) => true
          | _ => false
        else false
  | _ => false

def stripQuoteChars (l : List Char) : List Char :=
  let q := fun (c : Char) => c = '"' || c = singleQuoteChar
  ((l.dropWhile q).reverse.dropWhile q).reverse

/-- Conversion of one matched raw value in the key-value heuristic:
quoted string, boolean, null, number, or the token itself. -/
def heuristicValue (raw : List Char) : Json :=
  let v := pyStripList raw
  let lowered := v.map Char.toLower
  if v ≠ [] && v.headD ' ' = '"' && v.getLastD ' ' = '"' then
    .str (String.mk ((v.drop 1).dropLast))
  else if v ≠ [] && v.headD ' ' = singleQuoteChar && v.getLastD ' ' = singleQuoteChar then
    .str (String.mk ((v.drop 1).dropLast))
  else if lowered = "true".toList then .bool true
  else if lowered = "false".toList then .bool false
  else if lowered = "null".toList then .null
  else if v.contains '.' then
    if pyFloatTokenOk v then .num (String.mk v)
    else .str (String.mk (stripQuoteChars v))
  else
    match pyIntOfToken v with
    | some n => .num (toString n)
    | none => .str (String.mk (stripQuoteChars v))

/-- One attempt of the key-value regex at the current position: optional
quote, identifier, optional quote, whitespace, colon, whitespace, then a
non-empty greedy run of value characters (with the one-step backtrack
into the whitespace run when the greedy run is empty).  Returns the key,
the raw value characters and the input after the match. -/
def heuristicMatchAt (l : List Char) : Option (String × List Char × List Char) :=
  let afterQuote : Option (List Char) :=
    match l with
    | q :: r =>
      if q = '"' || q = singleQuoteChar then
        match r with
        | h :: _ => if identHeadChar h then some r else none
        | [] => none
      else if identHeadChar q then some l
      else none
    | [] => none
  match afterQuote with
  | none => none
  | some l1 =>
    match l1 with
    | [] => none
    | h :: t =>
      let key := h :: t.takeWhile identChar
      let r2 := t.dropWhile identChar
      let r2' :=
        match r2 with
        | q :: rr => if q = '"' || q = singleQuoteChar then rr else r2
        | [] => r2
      match r2'.dropWhile reWs with
      | ':' :: r4 =>
        let wsRun := r4.takeWhile reWs
        let r5 := r4.dropWhile reWs
        let valRun := r5.takeWhile heuristicValChar
        if valRun ≠ [] then
          some (String.mk key, valRun, r5.drop valRun.length)
        else if wsRun ≠ [] then
          some (String.mk key, [wsRun.getLastD ' '], r5)
        else none
      | _ => none

/-- Left-to-right non-overlapping scan with the key-value regex. -/
def heuristicScan : Nat → List Char → List (String × Json)
  | 0, _ => []
  | _ + 1, [] => []
  | fuel + 1, c :: rest =>
    match heuristicMatchAt (c :: rest) with
    | some (key, rawVal, after) =>
      (key, heuristicValue rawVal) :: heuristicScan fuel after
    | none => heuristicScan fuel rest

/-- Insertion-ordered dictionary update, as for a Python dict literal
built by repeated assignment. -/
def dictInsert (d : List (String × Json)) (k : String) (v : Json) :
    List (String × Json) :=
  if d.any (fun p => p.1 = k) then
    d.map (fun p => if p.1 = k then (k, v) else p)
  else d ++ [(k, v)]

/-- extract_key_values_heuristic from tool_call_parser.py. -/
def extract_key_values_heuristic (s : String) : List (String × Json) :=
  (heuristicScan s.toList.length s.toList).foldl
    (fun d p => dictInsert d p.1 p.2) []

/-- parse_json_safe from tool_call_parser.py: the ordered fallback
chain (direct parse, repair and parse, brace-span extraction with
repair, key-value heuristic, raw-string last resort).  The result type
is Json because the direct-parse strategy returns whatever json.loads
produced, keyed mapping or not. -/
def parse_json_safe (s : String) : Json :=
  if s = "" || pyStrip s = "" then .obj []
  else
    match json_loads s with
    | some v => v
    | none =>
      match json_loads (repair_json s) with
      | some v => v
      | none =>
        let extracted : Option Json :=
          match extractBraceSpan s with
          | some inner => json_loads (repair_json inner)
          | none => none
        match extracted with
        | some v => v
        | none =>
          match extract_key_values_heuristic s with
          | [] => .obj [("raw_arguments", .str s), ("_parse_error", .bool true)]
          | h => .obj h

example : parse_json_safe "" = .obj [] := by rfl
example : parse_json_safe "  \n " = .obj [] := by rfl
example : parse_json_safe "[1, 2]" = .arr [.num "1", .num "2"] := by rfl
example : repair_json "\x7b\"a\": 1,\x7d" = "\x7b\"a\": 1\x7d" := by rfl
example : repair_json "" = "\x7b\x7d" := by rfl
example : repair_json "\x7b\"a\": \x7b\"b\": 1" = "\x7b\"a\": \x7b\"b\": 1\x7d\x7d" := by rfl
example : repair_json "\x7b\"a\": \"\x7bb: 1\x7d\"\x7d" =
    "\x7b\"a\": \"\x7b\"b\": 1\x7d\"\x7d" := by rfl
example : json_loads (repair_json "\x7b\"a\": \"\x7bb: 1\x7d\"\x7d") = none := by rfl
example : parse_json_safe "!!!" =
    .obj [("raw_arguments", .str "!!!"), ("_parse_error", .bool true)] := by rfl
example : parse_json_safe "x: 1" = .obj [("x", .num "1")] := by rfl

/-! ## Thinking-tag filter (src/byom/providers/base.py) -/

/-- Python sep.join(parts). -/
def joinWith (sep : String) : List String → String
  | [] => ""
  | [x] => x
  | x :: xs => x ++ sep ++ joinWith sep xs

/-- Split at the first occurrence of a pattern: the characters before it
and the characters after it. -/
def splitAtFirstSeq (pat : List Char) : Nat → List Char → Option (List Char × List Char)
  | 0, l => if pat.isPrefixOf l then some ([], l.drop pat.length) else none
  | fuel + 1, l =>
    if pat.isPrefixOf l then some ([], l.drop pat.length)
    else
      match l with
      | [] => none
      | c :: r => (splitAtFirstSeq pat fuel r).map (fun p => (c :: p.1, p.2))

/-- Lazy tag-pair regex on one tag: left-to-right non-overlapping spans
from an opening marker to the nearest closing marker; returns the text
with the spans removed (re.sub of the empty string) and the captured
bodies (re.findall). -/
def scanTagSpans (openPat closePat : List Char) :
    Nat → List Char → List Char × List (List Char)
  | 0, l => (l, [])
  | _ + 1, [] => ([], [])
  | fuel + 1, x :: r =>
    if openPat.isPrefixOf (x :: r) then
      match splitAtFirstSeq closePat (r.length + 1) ((x :: r).drop openPat.length) with
      | some (body, after) =>
        let (cl, caps) := scanTagSpans openPat closePat fuel after
        (cl, body :: caps)
      | none =>
        let (cl, caps) := scanTagSpans openPat closePat fuel r
        (x :: cl, caps)
    else
      let (cl, caps) := scanTagSpans openPat closePat fuel r
      (x :: cl, caps)

/-- The three tag names of ThinkingParser.THINKING_PATTERNS. -/
def thinkingTagNames : List String := ["think", "thinking", "reasoning"]

def openTagOf (tag : String) : String := "<" ++ tag ++ ">"

def closeTagOf (tag : String) : String := "</" ++ tag ++ ">"

/-- ThinkingParser.extract_thinking: for each pattern in order, collect
the captured bodies from the current cleaned text and remove the matched
spans; finally strip the cleaned text and join the bodies with newlines. -/
def extract_thinking (text : String) : String × String :=
  let step := fun (st : List Char × List String) (tag : String) =>
    let (cl, caps) :=
      scanTagSpans (openTagOf tag).toList (closeTagOf tag).toList st.1.length st.1
    (cl, st.2 ++ caps.map String.mk)
  let (cleaned, parts) := thinkingTagNames.foldl step (text.toList, [])
  (pyStrip (String.mk cleaned), joinWith "\n" parts)

/-- ThinkingParser.is_thinking_start. -/
def is_thinking_start (text : String) : Bool :=
  thinkingTagNames.any fun tag =>
    (openTagOf tag).toList.isPrefixOf (pyStrip text).toList

/-- ThinkingParser.is_thinking_end. -/
def is_thinking_end (text : String) : Bool :=
  thinkingTagNames.any fun tag =>
    List.isSuffixOf (closeTagOf tag).toList (pyStrip text).toList

inductive ThinkingMode where
  | disabled
  | tags
  | streaming
deriving Repr, DecidableEq

/-- Mutable thinking state of LLMProvider (_thinking_buffer and
_in_thinking_block). -/
structure ThinkState where
  buffer : String
  inBlock : Bool
deriving Repr, DecidableEq

def resetThinkState : ThinkState := ⟨"", false⟩

/-- LLMProvider._process_thinking: returns the pair of display content
and optional thinking content, together with the updated state. -/
def process_thinking (mode : ThinkingMode) (st : ThinkState) (content : String) :
    (String × Option String) × ThinkState :=
  match mode with
  | .disabled => ((content, none), st)
  | .streaming => ((content, none), st)
  | .tags =>
    let st1 := if is_thinking_start content then { st with inBlock := true } else st
    if st1.inBlock then
      let buf := st1.buffer ++ content
      if is_thinking_end content then
        let (cleaned, thinking) := extract_thinking buf
        ((cleaned, some thinking), resetThinkState)
      else (("", none), { buffer := buf, inBlock := true })
    else
      let (cleaned, thinking) := extract_thinking content
      ((cleaned, if thinking = "" then none else some thinking), st1)

/-- Outputs of the provider stream loop for thinking-mode content. -/
inductive ThinkEmit where
  | thinkingOut (s : String)
  | textOut (s : String)
deriving Repr, DecidableEq

/-- One content chunk through OpenAIProvider._stream_response: thinking
content is emitted first when truthy, then display content when
non-empty. -/
def thinkingChunkEmits (mode : ThinkingMode) (st : ThinkState) (content : String) :
    List ThinkEmit × ThinkState :=
  let ((clean, thinking), st') := process_thinking mode st content
  let evs1 :=
    match thinking with
    | some t => if t = "" then [] else [ThinkEmit.thinkingOut t]
    | none => []
  let evs2 := if clean = "" then [] else [ThinkEmit.textOut clean]
  (evs1 ++ evs2, st')

/-- A whole request: the thinking state is reset at the start, then the
content chunks are filtered in order. -/
def run_thinking_filter (mode : ThinkingMode) (chunks : List String) : List ThinkEmit :=
  (chunks.foldl
    (fun acc c =>
      let (evs, st') := thinkingChunkEmits mode acc.2 c
      (acc.1 ++ evs, st'))
    (([] : List ThinkEmit), resetThinkState)).1

example : extract_thinking "<think>internal</think>visible" = ("visible", "internal") := by rfl
example : is_thinking_start "<think>internal</think>visible" = true := by rfl
example : is_thinking_end "<think>internal</think>visible" = false := by rfl
example : run_thinking_filter .tags ["<think>internal</think>visible"] = [] := by rfl
example : run_thinking_filter .tags ["<think>internal</think>", "visible"] =
    [.thinkingOut "internal", .textOut "visible"] := by rfl

/-! ## Streaming client (src/clients/llm_client.py) -/

/-- Tool-call arguments as carried by a ToolCall: a structured value or
a raw string (isinstance checks in the sources distinguish the two). -/
inductive ArgValue where
  | strArg (s : String)
  | jsonArg (j : Json)
deriving Repr

/-- Finalized tool call of the canonical event model. -/
structure ToolCall where
  call_id : String
  name : String
  arguments : ArgValue
deriving Repr

/-- Token usage record. -/
structure Usage where
  prompt_tokens : Nat
  completion_tokens : Nat
  total_tokens : Nat
  cached_tokens : Nat
deriving Repr, DecidableEq

/-- Modelled from the spec: clients/response.py is not among the
sources (only its importers are).  Per the spec, a completed tool call
has its accumulated argument text resolved via the Repair module, that
is, by the parse-with-repair-and-fallback chain. -/
def parse_tool_call_arguments (s : String) : ArgValue :=
  .jsonArg (parse_json_safe s)

/-- Canonical stream events of clients/response.py, modelled from the
spec's event taxonomy and the constructor calls in clients/llm_client.py
and agents/agents.py. -/
inductive StreamEvent where
  | textDelta (content : String)
  | toolCallStart (call_id : String) (name : String)
  | toolCallDelta (call_id : String) (name : Option String) (argumentsDelta : String)
  | toolCallComplete (tc : ToolCall)
  | messageComplete (finishReason : Option String) (usage : Option Usage)
  | errorEvent (msg : String)
deriving Repr

def StreamEvent.isToolCallStart : StreamEvent → Bool
  | .toolCallStart _ _ => true
  | _ => false

def StreamEvent.isToolCallComplete : StreamEvent → Bool
  | .toolCallComplete _ => true
  | _ => false

/-- One incremental tool-call fragment of a backend chunk, tagged by a
position index. -/
structure ToolCallFragment where
  index : Nat
  id : Option String
  fnName : Option String
  fnArguments : Option String
deriving Repr

/-- The delta of the single choice of a streamed chunk. -/
structure ChoiceDelta where
  content : Option String
  toolCallFragments : List ToolCallFragment
  finishReason : Option String
deriving Repr

/-- One streamed chunk from the backend wire. -/
structure RawChunk where
  choice : Option ChoiceDelta
  usage : Option Usage
deriving Repr

/-- Per-index accumulation buffer (the tool_calls dict entries). -/
structure ToolCallBuffer where
  id : String
  name : String
  arguments : String
deriving Repr

def buffersGet (bufs : List (Nat × ToolCallBuffer)) (i : Nat) :
    Option ToolCallBuffer :=
  (bufs.find? (fun p => p.1 = i)).map (·.2)

def buffersSet (bufs : List (Nat × ToolCallBuffer)) (i : Nat)
    (b : ToolCallBuffer) : List (Nat × ToolCallBuffer) :=
  if bufs.any (fun p => p.1 = i) then
    bufs.map (fun p => if p.1 = i then (i, b) else p)
  else bufs ++ [(i, b)]

/-- Processing of one tool-call fragment in LLMClient._stream_response:
create the buffer on first sight of the index, overwrite the name and
emit a start event when a name fragment is present, append and emit a
delta event when an argument fragment is present. -/
def applyToolCallFragment (bufs : List (Nat × ToolCallBuffer))
    (f : ToolCallFragment) : List (Nat × ToolCallBuffer) × List StreamEvent :=
  let bufs0 :=
    if (buffersGet bufs f.index).isSome then bufs
    else bufs ++ [(f.index, ⟨f.id.getD "", "", ""⟩)]
  let b := (buffersGet bufs0 f.index).getD ⟨"", "", ""⟩
  let (bufs1, evs1, b1) :=
    match f.fnName with
    | some nm =>
      if nm = "" then (bufs0, ([] : List StreamEvent), b)
      else
        let b' := { b with name := nm }
        (buffersSet bufs0 f.index b', [StreamEvent.toolCallStart b'.id nm], b')
    | none => (bufs0, [], b)
  let (bufs2, evs2) :=
    match f.fnArguments with
    | some ag =>
      if ag = "" then (bufs1, ([] : List StreamEvent))
      else
        let b'' := { b1 with arguments := b1.arguments ++ ag }
        (buffersSet bufs1 f.index b'',
          [StreamEvent.toolCallDelta b''.id f.fnName ag])
    | none => (bufs1, [])
  (bufs2, evs1 ++ evs2)

/-- Accumulator state of the chunk loop in LLMClient._stream_response. -/
structure StreamState where
  buffers : List (Nat × ToolCallBuffer)
  finishReason : Option String
  usage : Option Usage
deriving Repr

/-- One chunk of the loop body of LLMClient._stream_response: latest
usage and finish reason are retained, non-empty text content is emitted,
then each tool-call fragment is folded through the buffers. -/
def processRawChunk (st : StreamState) (ch : RawChunk) :
    StreamState × List StreamEvent :=
  let usage' := match ch.usage with | some u => some u | none => st.usage
  match ch.choice with
  | none => ({ st with usage := usage' }, [])
  | some choice =>
    let fr' := match choice.finishReason with | some f => some f | none => st.finishReason
    let textEvs :=
      match choice.content with
      | some c => if c = "" then [] else [StreamEvent.textDelta c]
      | none => []
    let (bufs', tcEvs) := choice.toolCallFragments.foldl
      (fun acc f =>
        let (b', evs) := applyToolCallFragment acc.1 f
        (b', acc.2 ++ evs))
      (st.buffers, ([] : List StreamEvent))
    (⟨bufs', fr', usage'⟩, textEvs ++ tcEvs)

/-- LLMClient._stream_response over a full chunk sequence: the chunk
loop, then one completion event per buffered index in order, then the
message-complete event. -/
def stream_response (chunks : List RawChunk) : List StreamEvent :=
  let (st, evs) := chunks.foldl
    (fun acc ch =>
      let (st', evs) := processRawChunk acc.1 ch
      (st', acc.2 ++ evs))
    ((⟨[], none, none⟩ : StreamState), ([] : List StreamEvent))
  evs
    ++ st.buffers.map (fun p =>
        StreamEvent.toolCallComplete
          ⟨p.2.id, p.2.name, parse_tool_call_arguments p.2.arguments⟩)
    ++ [StreamEvent.messageComplete st.finishReason st.usage]

/-- Outcome of one attempt of the chat_completion retry loop: either
the streamed events or one of the exception classes the loop handles. -/
inductive AttemptOutcome where
  | ok (events : List StreamEvent)
  | rateLimited (msg : String)
  | connectionError (msg : String)
  | apiError (msg : String)
  | unexpectedError (msg : String)

/-- Observable step of the retry loop: a backend attempt, a backoff
sleep, or a yielded stream event. -/
inductive RetryItem where
  | callBackend (attempt : Nat)
  | sleep (seconds : Nat)
  | yielded (e : StreamEvent)
deriving Repr

def RetryItem.isCall : RetryItem → Bool
  | .callBackend _ => true
  | _ => false

def RetryItem.isSleep : RetryItem → Bool
  | .sleep _ => true
  | _ => false

def RetryItem.isYield : RetryItem → Bool
  | .yielded _ => true
  | _ => false

def sleepSecondsOf (t : List RetryItem) : List Nat :=
  t.filterMap fun i => match i with | .sleep n => some n | _ => none

/-- The retry loop of LLMClient.chat_completion: for attempt in
range(max_retries + 1), yield the stream and return on success; on a
rate-limit or connection error sleep 2 to the attempt and continue when
attempts remain, else yield one terminal error event and return; on an
API error or unexpected error yield one terminal error event at once. -/
def chatCompletionLoop (maxRetries : Nat) (backend : Nat → AttemptOutcome) :
    Nat → Nat → List RetryItem
  | 0, _ => []
  | remaining + 1, attempt =>
    RetryItem.callBackend attempt ::
      match backend attempt with
      | .ok evs => evs.map RetryItem.yielded
      | .rateLimited m =>
        if attempt < maxRetries then
          .sleep (2 ^ attempt) :: chatCompletionLoop maxRetries backend remaining (attempt + 1)
        else [.yielded (.errorEvent ("Rate limit is exceeded: " ++ m))]
      | .connectionError m =>
        if attempt < maxRetries then
          .sleep (2 ^ attempt) :: chatCompletionLoop maxRetries backend remaining (attempt + 1)
        else [.yielded (.errorEvent ("Connection Error: " ++ m))]
      | .apiError m => [.yielded (.errorEvent ("API Error: " ++ m))]
      | .unexpectedError m => [.yielded (.errorEvent ("Unexpected error: " ++ m))]

/-- LLMClient.chat_completion, observed as its trace of attempts,
sleeps and yielded events. -/
def chat_completion (maxRetries : Nat) (backend : Nat → AttemptOutcome) :
    List RetryItem :=
  chatCompletionLoop maxRetries backend (maxRetries + 1) 0

/-! ## Agent orchestrator loop (src/agents/agents.py) -/

/-- Result of a tool invocation (tools/base.py ToolResult). -/
structure ToolResult where
  success : Bool
  output : String
  error : String
deriving Repr

/-- ToolResult.to_model_output: the output itself on success, and the
error text distinctly prefixed otherwise. -/
def ToolResult.to_model_output (r : ToolResult) : String :=
  if r.success then r.output
  else "Error: " ++ r.error ++ " \n\n Output: \n" ++ r.output

def dumpsEscChar (c : Char) : List Char :=
  if c = '"' then [ '\\', '"' ]
  else if c = '\\' then [ '\\', '\\' ]
  else if c = '\n' then [ '\\', 'n' ]
  else if c = '\t' then [ '\\', 't' ]
  else if c = '\r' then [ '\\', 'r' ]
  else if c = '\x08' then [ '\\', 'b' ]
  else if c = '\x0c' then [ '\\', 'f' ]
  else [c]

/-- json.dumps string encoding (escapes for the characters that occur
in this development; the sources only ever serialize ASCII argument
text). -/
def dumpsString (s : String) : String :=
  String.mk ([ '"' ] ++ s.toList.flatMap dumpsEscChar ++ [ '"' ])

/-- json.dumps with default separators. -/
def json_dumps : Json → String
  | .null => "null"
  | .bool true => "true"
  | .bool false => "false"
  | .num lex => lex
  | .str s => dumpsString s
  | .arr xs => "[" ++ joinWith ", " (xs.attach.map fun x => json_dumps x.1) ++ "]"
  | .obj fields =>
    "\x7b"
      ++ joinWith ", "
        (fields.attach.map fun p => dumpsString p.1.1 ++ ": " ++ json_dumps p.1.2)
      ++ "\x7d"
termination_by j => sizeOf j
decreasing_by
  · have h := List.sizeOf_lt_of_mem x.2
    simp only [Json.arr.sizeOf_spec]
    omega
  · have h := List.sizeOf_lt_of_mem p.2
    have h2 : sizeOf p.1.2 < sizeOf p.1 := by
      obtain ⟨⟨k, v⟩, hp⟩ := p
      simp [Prod.mk.sizeOf_spec]
    simp only [Json.obj.sizeOf_spec]
    omega

/-- Lifecycle events of the orchestrator.  Modelled from the spec where
needed: agents/events.py is not among the sources, so the constructors
follow the calls in agents/agents.py and the spec's lifecycle event
list. -/
inductive AgentEvent where
  | agentStart (message : String)
  | textDelta (content : String)
  | textComplete (content : String)
  | toolCallStart (call_id : String) (name : String) (arguments : ArgValue)
  | toolCallComplete (call_id : String) (name : String) (result : ToolResult)
  | agentError (error : String)
  | agentEnd (response : String)
deriving Repr

def AgentEvent.isAgentError : AgentEvent → Bool
  | .agentError _ => true
  | _ => false

def AgentEvent.isTextDelta : AgentEvent → Bool
  | .textDelta _ => true
  | _ => false

/-- Entry of an assistant message's tool-call list as stored in the
conversation context (arguments serialized back to a string). -/
structure ContextToolCall where
  id : String
  name : String
  argumentsText : String
deriving Repr

/-- Transcript messages as kept by the conversation context manager. -/
inductive ContextMessage where
  | user (content : String)
  | assistant (content : String) (tool_calls : List ContextToolCall)
  | toolResult (tool_call_id : String) (content : String)
deriving Repr

def contextToolCallOf (tc : ToolCall) : ContextToolCall :=
  ⟨tc.call_id, tc.name,
    match tc.arguments with
    | .jsonArg j => json_dumps j
    | .strArg s => s⟩

/-- Per-turn accumulator of the stream-consuming loop in
Agent._agentic_loop. -/
structure TurnAcc where
  emitted : List AgentEvent
  responseText : String
  toolCalls : List ToolCall
  errored : Bool

/-- The stream-consuming loop of one turn: text deltas are re-emitted
and accumulated, completed tool calls collected, and the first error
event re-emits one agent error and abandons the rest of the stream. -/
def process_stream : List StreamEvent → TurnAcc
  | [] => ⟨[], "", [], false⟩
  | e :: rest =>
    match e with
    | .textDelta c =>
      let r := process_stream rest
      ⟨.textDelta c :: r.emitted, c ++ r.responseText, r.toolCalls, r.errored⟩
    | .toolCallComplete tc =>
      let r := process_stream rest
      ⟨r.emitted, r.responseText, tc :: r.toolCalls, r.errored⟩
    | .errorEvent m =>
      ⟨[.agentError (if m = "" then "unknown error occured" else m)], "", [], true⟩
    | _ => process_stream rest

/-- Observable step of one agent run: a backend request for a turn, an
emitted lifecycle event, or a tool-executor invocation. -/
inductive RunItem where
  | request (turn : Nat)
  | emit (e : AgentEvent)
  | invokeTool (name : String) (arguments : ArgValue)
deriving Repr

def RunItem.isRequest : RunItem → Bool
  | .request _ => true
  | _ => false

def RunItem.isInvoke : RunItem → Bool
  | .invokeTool _ _ => true
  | _ => false

def RunItem.isErrorEmit : RunItem → Bool
  | .emit e => e.isAgentError
  | _ => false

/-- Projection of executor invocations out of a run trace. -/
def invokeProj : RunItem → Option (String × ArgValue)
  | .invokeTool n a => some (n, a)
  | _ => none

/-- Reason the loop ended.  The max-turns reason is modelled from the
spec (the run-state taxonomy): agents/events.py, which would carry it,
is not among the sources; in agents/agents.py the three exits are the
error return, the no-tool-calls return and falling off the while loop. -/
inductive RunReason where
  | noToolCalls
  | maxTurnsReached
  | errored
deriving Repr, DecidableEq

structure RunResult where
  trace : List RunItem
  messages : List ContextMessage
  reason : RunReason

/-- The per-tool-call run items of one turn: the start lifecycle
event, the executor invocation and the completion lifecycle event, for
each collected tool call in order. -/
def turnToolItems (invoke : String → ArgValue → ToolResult)
    (tcs : List ToolCall) : List RunItem :=
  tcs.flatMap fun tc =>
    [RunItem.emit (.toolCallStart tc.call_id tc.name tc.arguments),
      RunItem.invokeTool tc.name tc.arguments,
      RunItem.emit (.toolCallComplete tc.call_id tc.name (invoke tc.name tc.arguments))]

/-- Agent._agentic_loop: while the turn budget remains, request one
completion, consume its stream, append the assistant message when text
or tool calls were produced and no error occurred, stop when no tool
calls were requested, else execute every tool call in order, append the
tool results and continue.  The fuel argument is the number of
iterations the while condition still admits. -/
def agentic_loop (backend : Nat → List StreamEvent)
    (invoke : String → ArgValue → ToolResult) :
    Nat → Nat → List ContextMessage → RunResult
  | 0, _, msgs => ⟨[], msgs, .maxTurnsReached⟩
  | fuel + 1, turn, msgs =>
    let acc := process_stream (backend turn)
    let pre : List RunItem := .request turn :: acc.emitted.map .emit
    if acc.errored then ⟨pre, msgs, .errored⟩
    else
      let msgs1 :=
        if acc.responseText = "" ∧ acc.toolCalls.isEmpty then msgs
        else msgs ++ [.assistant acc.responseText (acc.toolCalls.map contextToolCallOf)]
      let textDone : List RunItem :=
        if acc.responseText = "" then []
        else [.emit (.textComplete acc.responseText)]
      if acc.toolCalls.isEmpty then ⟨pre ++ textDone, msgs1, .noToolCalls⟩
      else
        let toolItems := turnToolItems invoke acc.toolCalls
        let msgs2 := msgs1 ++ acc.toolCalls.map fun tc =>
          ContextMessage.toolResult tc.call_id (invoke tc.name tc.arguments).to_model_output
        let rest := agentic_loop backend invoke fuel (turn + 1) msgs2
        ⟨pre ++ textDone ++ toolItems ++ rest.trace, rest.messages, rest.reason⟩

/-! ## Provider registry (src/byom/providers/registry.py) -/

/-- A registered provider class.  The supports_model field abstracts
LLMProvider.supports_model, the case-insensitive regex match of the
model identifier against the class's declared model_patterns. -/
structure ProviderClass where
  name : String
  supports_model : String → Bool

/-- Registry state: the name-keyed mapping _PROVIDERS in insertion
order, and the auto-detection order _PROVIDER_PRIORITY. -/
structure Registry where
  providers : List (String × ProviderClass)
  priority : List String

def lookupProvider (reg : Registry) (n : String) : Option ProviderClass :=
  (reg.providers.find? (fun p => p.1 = n)).map (·.2)

/-- The auto-detection loop of get_provider: walk the priority list,
instantiate the first class that supports the model; a name missing
from the mapping is a lookup failure (KeyError). -/
def autoDetectLoop (reg : Registry) (model : String) :
    List String → Option (Except String ProviderClass)
  | [] => none
  | n :: rest =>
    match lookupProvider reg n with
    | none => some (.error ("KeyError: " ++ n))
    | some cls =>
      if cls.supports_model model then some (.ok cls)
      else autoDetectLoop reg model rest

/-- get_provider from registry.py: explicit selection by (truthy) name
raises on an unknown name, listing the registered names; otherwise
auto-detection over the priority order with fallback to the
first-registered provider, and an error only when nothing is
registered. -/
def get_provider (reg : Registry) (model : String)
    (provider_name : Option String) : Except String ProviderClass :=
  let explicitName :=
    match provider_name with
    | some pn => if pn = "" then none else some pn
    | none => none
  match explicitName with
  | some pn =>
    match lookupProvider reg pn with
    | some cls => .ok cls
    | none =>
      .error ("Unknown provider: " ++ pn ++ ". Available: "
        ++ joinWith ", " (reg.providers.map (·.1)))
  | none =>
    match autoDetectLoop reg model reg.priority with
    | some r => r
    | none =>
      match reg.priority with
      | n :: _ =>
        match lookupProvider reg n with
        | some cls => .ok cls
        | none => .error ("KeyError: " ++ n)
      | [] =>
        .error "No providers registered. Install a provider or configure one manually."

/-- Selection rule as the spec words it: the first provider in
registration priority order whose declared name patterns match the
requested model identifier, and the first-registered provider when none
match.  Stated over the classes the priority list denotes; compared
against get_provider in the refinement theorem. -/
def spec_auto_selection (reg : Registry) (model : String) : Option ProviderClass :=
  let classes := reg.priority.filterMap (lookupProvider reg)
  match classes.find? (fun cls => cls.supports_model model) with
  | some cls => some cls
  | none => classes.head?

/-! ## Tool-call validation (src/byom/tools/tool_call_parser.py) -/

/-- validate_tool_call: empty or whitespace-only call identifier or
tool name, and string arguments that fail to parse even after repair,
are collected as messages; the result is the validity flag and the
joined message when any. -/
def validationErrors (tc : ToolCall) : List String :=
  (if pyStrip tc.call_id = "" then ["call_id is empty"] else [])
    ++ (if pyStrip tc.name = "" then ["tool name is empty"] else [])
    ++ (match tc.arguments with
      | .strArg s =>
        if pyStrip s = "" then []
        else
          match json_loads s with
          | some _ => []
          | none =>
            match json_loads (repair_json s) with
            | some _ => []
            | none => ["arguments are not valid JSON: " ++ String.mk (s.toList.take 100)]
      | .jsonArg _ => [])

def validate_tool_call (tc : ToolCall) : Bool × Option String :=
  let errs := validationErrors tc
  (errs.isEmpty, if errs.isEmpty then none else some (joinWith "; " errs))

example : validate_tool_call ⟨"", "run", .jsonArg (.obj [])⟩ =
    (false, some "call_id is empty") := by rfl
example : validate_tool_call ⟨"c1", "  ", .strArg "\x7b\x7d"⟩ =
    (false, some "tool name is empty") := by rfl
example : validate_tool_call ⟨"c1", "run", .strArg "\x7b\"a\": 1,\x7d"⟩ =
    (true, none) := by rfl

/-! ## Shared helper lemmas -/

theorem stringToListAppend (a b : String) : (a ++ b).toList = a.toList ++ b.toList := by
  simp [String.toList]

theorem infixOfMemJoinWith (sep : String) :
    ∀ (l : List String) (x : String), x ∈ l → x.toList <:+: (joinWith sep l).toList := by
  intro l
  induction l with
  | nil => intro x hx; cases hx
  | cons y ys ih =>
    intro x hx
    cases ys with
    | nil =>
      have hxy : x = y := by
        cases hx with
        | head => rfl
        | tail _ h => cases h
      subst hxy
      exact List.infix_rfl
    | cons z zs =>
      have hjoin : joinWith sep (y :: z :: zs) = y ++ sep ++ joinWith sep (z :: zs) := rfl
      cases hx with
      | head =>
        refine ⟨[], (sep ++ joinWith sep (z :: zs)).toList, ?_⟩
        rw [hjoin]
        simp [stringToListAppend]
      | tail _ hmem =>
        obtain ⟨s, t, hst⟩ := ih x hmem
        refine ⟨(y ++ sep).toList ++ s, t, ?_⟩
        rw [hjoin]
        simp only [stringToListAppend, List.append_assoc]
        rw [← List.append_assoc s x.toList t, hst]

/-! ## Claim theorems -/

/-- C1: parse_json_safe promises (by its signature, its docstring and
the spec) to return a keyed mapping for every input, but the
direct-parse strategy passes the json.loads result through unchanged:
on the valid JSON text [1, 2] the function returns the bare list, not a
dict.  This theorem evaluates the embedded function at that failing
input. -/
theorem parse_json_safe_bare_list_on_array_input :
    parse_json_safe "[1, 2]" = Json.arr [Json.num "1", Json.num "2"]
      ∧ (parse_json_safe "[1, 2]").isObj = false := by
  constructor
  · rfl
  · rfl

/-- C2 counterexample: in tag mode, the single chunk
<think>internal</think>visible produces no thinking output and no
visible output at all — the is-thinking-start check buffers the whole
chunk and the is-thinking-end check fails because the chunk does not
end with the closing marker, so the claimed pair of outputs is not
produced. -/
theorem thinking_filter_single_chunk_swallows_content :
    run_thinking_filter .tags ["<think>internal</think>visible"] = [] := by rfl

/-- C2 amended: when the closing marker ends its chunk — the chunks
<think>internal</think> and visible — the tag-mode filter yields exactly
one thinking output equal to internal followed by one visible-text
output equal to visible, with no markup in either. -/
theorem thinking_filter_split_chunk_round_trip :
    run_thinking_filter .tags ["<think>internal</think>", "visible"] =
      [.thinkingOut "internal", .textOut "visible"] := by rfl

/-- C3: for the fragment sequence (index 0, name search), (index 0,
args open-brace q colon), (index 0, args x close-brace) the stream loop
emits exactly one ToolCallStart for index 0 and exactly one
ToolCallComplete whose arguments are the mapping q to x, resolved via
the repair chain; the full event list is pinned down. -/
theorem stream_response_index_keyed_accumulation :
    stream_response
      [⟨some ⟨none, [⟨0, none, some "search", none⟩], none⟩, none⟩,
        ⟨some ⟨none, [⟨0, none, none, some "\x7b\"q\":"⟩], none⟩, none⟩,
        ⟨some ⟨none, [⟨0, none, none, some "\"x\"\x7d"⟩], none⟩, none⟩] =
      [.toolCallStart "" "search",
        .toolCallDelta "" none "\x7b\"q\":",
        .toolCallDelta "" none "\"x\"\x7d",
        .toolCallComplete ⟨"", "search", .jsonArg (.obj [("q", .str "x")])⟩,
        .messageComplete none none]
    ∧ ((stream_response
        [⟨some ⟨none, [⟨0, none, some "search", none⟩], none⟩, none⟩,
          ⟨some ⟨none, [⟨0, none, none, some "\x7b\"q\":"⟩], none⟩, none⟩,
          ⟨some ⟨none, [⟨0, none, none, some "\"x\"\x7d"⟩], none⟩, none⟩]).filter
        StreamEvent.isToolCallStart).length = 1
    ∧ ((stream_response
        [⟨some ⟨none, [⟨0, none, some "search", none⟩], none⟩, none⟩,
          ⟨some ⟨none, [⟨0, none, none, some "\x7b\"q\":"⟩], none⟩, none⟩,
          ⟨some ⟨none, [⟨0, none, none, some "\"x\"\x7d"⟩], none⟩, none⟩]).filter
        StreamEvent.isToolCallComplete).length = 1 := by
  refine ⟨?_, ?_, ?_⟩ <;> rfl

/-- C7 counterexample: the string with value open-brace b colon 1
close-brace under key a is valid JSON, but repair quotes the bare-key
pattern inside the string literal and the repaired text no longer
parses — so repair-then-parse is not equal to direct parse. -/
theorem repair_json_corrupts_valid_string :
    json_loads "\x7b\"a\": \"\x7bb: 1\x7d\"\x7d" =
      some (Json.obj [("a", Json.str "\x7bb: 1\x7d")])
    ∧ json_loads (repair_json "\x7b\"a\": \"\x7bb: 1\x7d\"\x7d") = none := by
  exact ⟨rfl, rfl⟩

/-- C7 amended: for every already-valid argument string on which the
repair heuristics act as the identity, repair-then-parse yields the
same value as direct parse.  (The counterexample shows the restriction
is needed: the heuristics may rewrite content inside string literals.) -/
theorem repair_json_preserves_parse_when_inert (s : String) (v : Json)
    (hparse : json_loads s = some v) (hinert : repair_json s = s) :
    json_loads (repair_json s) = some v := by
  rw [hinert]
  exact hparse

/-- C7 witness: a concrete already-valid string on which repair is
inert, with repair-then-parse evaluated. -/
theorem repair_json_preserves_parse_when_inert_witness :
    json_loads (repair_json "\x7b\"a\": 1\x7d") = some (Json.obj [("a", Json.num "1")]) :=
  repair_json_preserves_parse_when_inert "\x7b\"a\": 1\x7d"
    (Json.obj [("a", Json.num "1")]) (by rfl) (by rfl)

/-- C8: validate_tool_call reports failures rather than throwing: an
empty or whitespace-only tool name yields an invalid verdict whose
message contains the word name; an empty or whitespace-only call
identifier yields an invalid verdict whose message contains call_id;
and a tool call with non-blank identifier and name whose string
arguments parse, possibly after repair, is reported valid with no
message. -/
theorem validate_tool_call_reports (tc : ToolCall) :
    (pyStrip tc.name = "" →
      (validate_tool_call tc).1 = false ∧
        ∃ m, (validate_tool_call tc).2 = some m ∧ "name".toList <:+: m.toList)
    ∧ (pyStrip tc.call_id = "" →
      (validate_tool_call tc).1 = false ∧
        ∃ m, (validate_tool_call tc).2 = some m ∧ "call_id".toList <:+: m.toList)
    ∧ (∀ s, pyStrip tc.call_id ≠ "" → pyStrip tc.name ≠ "" →
      tc.arguments = .strArg s →
      ((∃ v, json_loads s = some v) ∨ (∃ v, json_loads (repair_json s) = some v)) →
      validate_tool_call tc = (true, none)) := by
  have withErr : ∀ msg, msg ∈ validationErrors tc →
      (validate_tool_call tc).1 = false ∧
        (validate_tool_call tc).2 = some (joinWith "; " (validationErrors tc)) := by
    intro msg hmem
    have hne : validationErrors tc ≠ [] := List.ne_nil_of_mem hmem
    have hempty : (validationErrors tc).isEmpty = false := by
      cases h : validationErrors tc with
      | nil => exact absurd h hne
      | cons a l => rfl
    constructor
    · simp [validate_tool_call, hempty]
    · simp [validate_tool_call, hempty]
  refine ⟨?_, ?_, ?_⟩
  · intro hn
    have hmem : "tool name is empty" ∈ validationErrors tc := by
      simp [validationErrors, hn]
    obtain ⟨h1, h2⟩ := withErr _ hmem
    refine ⟨h1, joinWith "; " (validationErrors tc), h2, ?_⟩
    exact List.IsInfix.trans (by decide) (infixOfMemJoinWith "; " _ _ hmem)
  · intro hc
    have hmem : "call_id is empty" ∈ validationErrors tc := by
      simp [validationErrors, hc]
    obtain ⟨h1, h2⟩ := withErr _ hmem
    refine ⟨h1, joinWith "; " (validationErrors tc), h2, ?_⟩
    exact List.IsInfix.trans (by decide) (infixOfMemJoinWith "; " _ _ hmem)
  · intro s hc hn harg hparse
    have herrs : validationErrors tc = [] := by
      by_cases hs : pyStrip s = ""
      · simp [validationErrors, hc, hn, harg, hs]
      · cases hjs : json_loads s with
        | some v => simp [validationErrors, hc, hn, harg, hs, hjs]
        | none =>
          cases hparse with
          | inl hex =>
            obtain ⟨v, hv⟩ := hex
            rw [hjs] at hv
            cases hv
          | inr hex =>
            obtain ⟨v, hv⟩ := hex
            simp [validationErrors, hc, hn, harg, hs, hjs, hv]
    simp [validate_tool_call, herrs]

/-- C8 witness: the three verdicts at concrete tool calls — blank
name, blank identifier, and a well-formed call whose arguments parse
after repair. -/
theorem validate_tool_call_reports_witness :
    (((validate_tool_call ⟨"c1", " ", .jsonArg (.obj [])⟩).1 = false ∧
      ∃ m, (validate_tool_call ⟨"c1", " ", .jsonArg (.obj [])⟩).2 = some m ∧
        "name".toList <:+: m.toList)
    ∧ ((validate_tool_call ⟨"", "run", .jsonArg (.obj [])⟩).1 = false ∧
      ∃ m, (validate_tool_call ⟨"", "run", .jsonArg (.obj [])⟩).2 = some m ∧
        "call_id".toList <:+: m.toList))
    ∧ validate_tool_call ⟨"c1", "run", .strArg "\x7b\"a\": 1,\x7d"⟩ = (true, none) := by
  refine ⟨⟨?_, ?_⟩, ?_⟩
  · exact (validate_tool_call_reports ⟨"c1", " ", .jsonArg (.obj [])⟩).1 (by rfl)
  · exact (validate_tool_call_reports ⟨"", "run", .jsonArg (.obj [])⟩).2.1 (by rfl)
  · exact (validate_tool_call_reports ⟨"c1", "run", .strArg "\x7b\"a\": 1,\x7d"⟩).2.2
      "\x7b\"a\": 1,\x7d" (by decide) (by decide) rfl
      (Or.inr ⟨Json.obj [("a", Json.num "1")], by rfl⟩)

theorem infixExtendLeft {α : Type} (a : List α) {x l : List α}
    (h : x <:+: l) : x <:+: a ++ l := by
  obtain ⟨s, t, hst⟩ := h
  exact ⟨a ++ s, t, by rw [← hst]; simp⟩

/-- C9: with at least one provider registered and a well-formed
registry, auto-selection never fails: get_provider with no explicit
name returns the first provider in priority order whose declared
patterns match the model identifier, and the first-registered provider
when none match — exactly the spec-side selection rule. -/
theorem get_provider_auto_selection (reg : Registry) (model : String)
    (hne : reg.priority ≠ [])
    (hwf : ∀ n ∈ reg.priority, (lookupProvider reg n).isSome) :
    ∃ cls, get_provider reg model none = .ok cls ∧
      spec_auto_selection reg model = some cls := by
  have key : ∀ ns : List String, (∀ n ∈ ns, (lookupProvider reg n).isSome) →
      (∃ cls, (ns.filterMap (lookupProvider reg)).find?
          (fun c => c.supports_model model) = some cls ∧
        autoDetectLoop reg model ns = some (.ok cls))
      ∨ ((ns.filterMap (lookupProvider reg)).find?
          (fun c => c.supports_model model) = none ∧
        autoDetectLoop reg model ns = none) := by
    intro ns
    induction ns with
    | nil => intro _; exact Or.inr ⟨rfl, rfl⟩
    | cons n rest ih =>
      intro hall
      have hn := hall n (List.mem_cons_self n rest)
      obtain ⟨c, hc⟩ := Option.isSome_iff_exists.mp hn
      have hmap : (n :: rest).filterMap (lookupProvider reg) =
          c :: rest.filterMap (lookupProvider reg) := by
        simp [List.filterMap_cons, hc]
      by_cases hsup : c.supports_model model
      · refine Or.inl ⟨c, ?_, ?_⟩
        · rw [hmap]; simp [List.find?_cons, hsup]
        · simp [autoDetectLoop, hc, hsup]
      · have hrest := ih (fun m hm => hall m (List.mem_cons_of_mem n hm))
        have hloop : autoDetectLoop reg model (n :: rest) =
            autoDetectLoop reg model rest := by
          simp [autoDetectLoop, hc, hsup]
        have hfind : ((n :: rest).filterMap (lookupProvider reg)).find?
            (fun c => c.supports_model model) =
            (rest.filterMap (lookupProvider reg)).find?
              (fun c => c.supports_model model) := by
          rw [hmap]
          simp [List.find?_cons, hsup]
        cases hrest with
        | inl h => obtain ⟨cls, h1, h2⟩ := h
                   exact Or.inl ⟨cls, by rw [hfind]; exact h1, by rw [hloop]; exact h2⟩
        | inr h => exact Or.inr ⟨by rw [hfind]; exact h.1, by rw [hloop]; exact h.2⟩
  cases key reg.priority hwf with
  | inl h =>
    obtain ⟨cls, hfind, hloop⟩ := h
    refine ⟨cls, ?_, ?_⟩
    · simp [get_provider, hloop]
    · simp [spec_auto_selection, hfind]
  | inr h =>
    obtain ⟨hfind, hloop⟩ := h
    cases hp : reg.priority with
    | nil => exact absurd hp hne
    | cons n rest =>
      rw [hp] at hloop hfind
      have hn := hwf n (by rw [hp]; exact List.mem_cons_self n rest)
      obtain ⟨c, hc⟩ := Option.isSome_iff_exists.mp hn
      refine ⟨c, ?_, ?_⟩
      · simp [get_provider, hloop, hp, hc]
      · have hmap : (n :: rest).filterMap (lookupProvider reg) =
            c :: rest.filterMap (lookupProvider reg) := by
          simp [List.filterMap_cons, hc]
        rw [hmap] at hfind
        simp [spec_auto_selection, hp, hmap, hfind]

/-- C9 witness: a two-provider registry where the model identifier
matches the second provider's patterns. -/
theorem get_provider_auto_selection_witness :
    ∃ cls,
      get_provider
        ⟨[("openai", ⟨"openai", fun m => m = "gpt-4"⟩),
          ("anthropic", ⟨"anthropic", fun m => m = "claude"⟩)],
          ["openai", "anthropic"]⟩ "claude" none = .ok cls ∧
      spec_auto_selection
        ⟨[("openai", ⟨"openai", fun m => m = "gpt-4"⟩),
          ("anthropic", ⟨"anthropic", fun m => m = "claude"⟩)],
          ["openai", "anthropic"]⟩ "claude" = some cls :=
  get_provider_auto_selection _ "claude" (by simp)
    (by intro n hn
        simp only [List.mem_cons, List.not_mem_nil, or_false] at hn
        rcases hn with h | h <;> subst h <;> rfl)

/-- C10: explicit selection by a (non-blank) provider name that is not
registered raises: get_provider returns the ValueError message that
names the unknown provider and lists every registered provider name —
the never-fail fallback does not apply to explicit selection. -/
theorem get_provider_unknown_name_error (reg : Registry) (model pn : String)
    (hpn : pn ≠ "") (hmiss : lookupProvider reg pn = none) :
    get_provider reg model (some pn) =
      .error ("Unknown provider: " ++ pn ++ ". Available: "
        ++ joinWith ", " (reg.providers.map (·.1)))
    ∧ pn.toList <:+: ("Unknown provider: " ++ pn ++ ". Available: "
        ++ joinWith ", " (reg.providers.map (·.1))).toList
    ∧ ∀ n ∈ reg.providers.map (·.1),
        n.toList <:+: ("Unknown provider: " ++ pn ++ ". Available: "
          ++ joinWith ", " (reg.providers.map (·.1))).toList := by
  refine ⟨?_, ?_, ?_⟩
  · simp [get_provider, hpn, hmiss]
  · refine ⟨"Unknown provider: ".toList,
      (". Available: " ++ joinWith ", " (reg.providers.map (·.1))).toList, ?_⟩
    simp [stringToListAppend]
  · intro n hn
    have h1 := infixOfMemJoinWith ", " (reg.providers.map (·.1)) n hn
    have h2 := infixExtendLeft
      ("Unknown provider: " ++ pn ++ ". Available: ").toList h1
    have heq : ("Unknown provider: " ++ pn ++ ". Available: ").toList
          ++ (joinWith ", " (reg.providers.map (·.1))).toList =
        ("Unknown provider: " ++ pn ++ ". Available: "
          ++ joinWith ", " (reg.providers.map (·.1))).toList := by
      simp [stringToListAppend]
    rw [heq] at h2
    exact h2

/-- C10 witness: requesting the unregistered name myprov from a
one-provider registry. -/
theorem get_provider_unknown_name_error_witness :
    get_provider ⟨[("openai", ⟨"openai", fun _ => true⟩)], ["openai"]⟩
        "gpt-4" (some "myprov") =
      .error ("Unknown provider: " ++ "myprov" ++ ". Available: "
        ++ joinWith ", "
          ((⟨[("openai", ⟨"openai", fun _ => true⟩)], ["openai"]⟩ :
            Registry).providers.map (·.1)))
    ∧ "myprov".toList <:+: ("Unknown provider: " ++ "myprov" ++ ". Available: "
        ++ joinWith ", "
          ((⟨[("openai", ⟨"openai", fun _ => true⟩)], ["openai"]⟩ :
            Registry).providers.map (·.1))).toList
    ∧ ∀ n ∈ ((⟨[("openai", ⟨"openai", fun _ => true⟩)], ["openai"]⟩ :
          Registry).providers.map (·.1)),
        n.toList <:+: ("Unknown provider: " ++ "myprov" ++ ". Available: "
          ++ joinWith ", "
            ((⟨[("openai", ⟨"openai", fun _ => true⟩)], ["openai"]⟩ :
              Registry).providers.map (·.1))).toList :=
  get_provider_unknown_name_error _ "gpt-4" "myprov" (by decide) (by rfl)

theorem rateLimitLoopClosedForm (maxRetries : Nat) (m : String) :
    ∀ k a, a + k = maxRetries →
      chatCompletionLoop maxRetries (fun _ => .rateLimited m) (k + 1) a =
        (List.range' a k).flatMap
            (fun i => [RetryItem.callBackend i, RetryItem.sleep (2 ^ i)])
          ++ [RetryItem.callBackend maxRetries,
              RetryItem.yielded (.errorEvent ("Rate limit is exceeded: " ++ m))] := by
  intro k
  induction k with
  | zero =>
    intro a ha
    have haeq : a = maxRetries := by omega
    subst haeq
    simp [chatCompletionLoop]
  | succ k ih =>
    intro a ha
    have hlt : a < maxRetries := by omega
    have hrec := ih (a + 1) (by omega)
    have hstep : chatCompletionLoop maxRetries (fun _ => .rateLimited m) (k + 1 + 1) a =
        RetryItem.callBackend a ::
          (if a < maxRetries then
            RetryItem.sleep (2 ^ a) ::
              chatCompletionLoop maxRetries (fun _ => .rateLimited m) (k + 1) (a + 1)
          else [RetryItem.yielded (.errorEvent ("Rate limit is exceeded: " ++ m))]) := rfl
    rw [hstep, if_pos hlt, hrec, List.range'_succ]
    simp

theorem pairItemsFilterCall (ns : List Nat) :
    ((ns.flatMap (fun i => [RetryItem.callBackend i, RetryItem.sleep (2 ^ i)])).filter
      RetryItem.isCall).length = ns.length := by
  induction ns with
  | nil => rfl
  | cons n rest ih => simp [List.flatMap_cons, RetryItem.isCall, ih]

theorem pairItemsFilterYield (ns : List Nat) :
    (ns.flatMap (fun i => [RetryItem.callBackend i, RetryItem.sleep (2 ^ i)])).filter
      RetryItem.isYield = [] := by
  induction ns with
  | nil => rfl
  | cons n rest ih => simp [List.flatMap_cons, RetryItem.isYield, ih]

theorem sleepSecondsOfAppend (a b : List RetryItem) :
    sleepSecondsOf (a ++ b) = sleepSecondsOf a ++ sleepSecondsOf b :=
  List.filterMap_append a b _

theorem pairItemsSleeps (ns : List Nat) :
    sleepSecondsOf
        (ns.flatMap (fun i => [RetryItem.callBackend i, RetryItem.sleep (2 ^ i)])) =
      ns.map (fun i => 2 ^ i) := by
  induction ns with
  | nil => rfl
  | cons n rest ih =>
    simp only [List.flatMap_cons, sleepSecondsOfAppend, ih, List.map_cons]
    rfl

/-- C4: against a backend that rate-limits every attempt, the
chat_completion retry loop makes exactly max_retries + 1 attempts,
sleeps 2 to the attempt between consecutive attempts (so the backoff
delays are strictly increasing and double each time), yields nothing
until the single terminal error event, and makes no further attempt
after it. -/
theorem chat_completion_rate_limit_retry_ceiling (maxRetries : Nat) (m : String) :
    ∃ pre,
      chat_completion maxRetries (fun _ => .rateLimited m) =
        pre ++ [RetryItem.yielded (.errorEvent ("Rate limit is exceeded: " ++ m))]
      ∧ (pre.filter RetryItem.isCall).length = maxRetries + 1
      ∧ pre.filter RetryItem.isYield = []
      ∧ sleepSecondsOf pre = (List.range maxRetries).map (fun a => 2 ^ a)
      ∧ List.Chain' (· < ·) (sleepSecondsOf pre) := by
  refine ⟨(List.range' 0 maxRetries).flatMap
      (fun i => [RetryItem.callBackend i, RetryItem.sleep (2 ^ i)])
    ++ [RetryItem.callBackend maxRetries], ?_, ?_, ?_, ?_, ?_⟩
  · have h := rateLimitLoopClosedForm maxRetries m maxRetries 0 (by omega)
    unfold chat_completion
    rw [h]
    simp
  · rw [List.filter_append, List.length_append, pairItemsFilterCall]
    simp [RetryItem.isCall, List.length_range']
  · rw [List.filter_append, pairItemsFilterYield]
    simp [RetryItem.isYield]
  · unfold sleepSecondsOf
    rw [List.filterMap_append]
    have h1 := pairItemsSleeps (List.range' 0 maxRetries)
    unfold sleepSecondsOf at h1
    rw [h1]
    rw [← List.range_eq_range']
    simp
  · unfold sleepSecondsOf
    rw [List.filterMap_append]
    have h1 := pairItemsSleeps (List.range' 0 maxRetries)
    unfold sleepSecondsOf at h1
    rw [h1, ← List.range_eq_range']
    have hpw : (List.range maxRetries).Pairwise (· < ·) := List.pairwise_lt_range maxRetries
    have hmapped : ((List.range maxRetries).map (fun i => 2 ^ i)).Pairwise (· < ·) := by
      refine List.Pairwise.map _ ?_ hpw
      intro a b hab
      exact Nat.pow_lt_pow_right (by omega) hab
    simpa using hmapped.chain'

theorem processStreamErrorShape (evs : List StreamEvent) :
    (process_stream evs).errored = true →
      ((process_stream evs).emitted.filter AgentEvent.isAgentError).length = 1 ∧
      ∀ e ∈ (process_stream evs).emitted,
        e.isTextDelta = true ∨ e.isAgentError = true := by
  induction evs with
  | nil => intro h; exact absurd h (by simp [process_stream])
  | cons e rest ih =>
    intro h
    cases e with
    | textDelta c =>
      have herr : (process_stream rest).errored = true := by
        simpa [process_stream] using h
      obtain ⟨h1, h2⟩ := ih herr
      constructor
      · simpa [process_stream, AgentEvent.isAgentError] using h1
      · intro x hx
        simp only [process_stream, List.mem_cons] at hx
        cases hx with
        | inl hx => subst hx; exact Or.inl rfl
        | inr hx => exact h2 x hx
    | toolCallComplete tc =>
      have herr : (process_stream rest).errored = true := by
        simpa [process_stream] using h
      obtain ⟨h1, h2⟩ := ih herr
      exact ⟨by simpa [process_stream] using h1,
        by intro x hx; exact h2 x (by simpa [process_stream] using hx)⟩
    | errorEvent m =>
      constructor
      · simp [process_stream, AgentEvent.isAgentError]
      · intro x hx
        simp only [process_stream, List.mem_cons, List.not_mem_nil, or_false] at hx
        subst hx
        exact Or.inr rfl
    | toolCallStart a b =>
      have herr : (process_stream rest).errored = true := by
        simpa [process_stream] using h
      obtain ⟨h1, h2⟩ := ih herr
      exact ⟨by simpa [process_stream] using h1,
        by intro x hx; exact h2 x (by simpa [process_stream] using hx)⟩
    | toolCallDelta a b c =>
      have herr : (process_stream rest).errored = true := by
        simpa [process_stream] using h
      obtain ⟨h1, h2⟩ := ih herr
      exact ⟨by simpa [process_stream] using h1,
        by intro x hx; exact h2 x (by simpa [process_stream] using hx)⟩
    | messageComplete a b =>
      have herr : (process_stream rest).errored = true := by
        simpa [process_stream] using h
      obtain ⟨h1, h2⟩ := ih herr
      exact ⟨by simpa [process_stream] using h1,
        by intro x hx; exact h2 x (by simpa [process_stream] using hx)⟩

theorem processStreamNoErrorShape (evs : List StreamEvent) :
    (process_stream evs).errored = false →
      ∀ e ∈ (process_stream evs).emitted, e.isTextDelta = true := by
  induction evs with
  | nil => intro _ e he; simp [process_stream] at he
  | cons ev rest ih =>
    intro h e he
    cases ev with
    | textDelta c =>
      have herr : (process_stream rest).errored = false := by
        simpa [process_stream] using h
      simp only [process_stream, List.mem_cons] at he
      cases he with
      | inl he => subst he; rfl
      | inr he => exact ih herr e he
    | toolCallComplete tc =>
      exact ih (by simpa [process_stream] using h) e (by simpa [process_stream] using he)
    | errorEvent m => simp [process_stream] at h
    | toolCallStart a b =>
      exact ih (by simpa [process_stream] using h) e (by simpa [process_stream] using he)
    | toolCallDelta a b c =>
      exact ih (by simpa [process_stream] using h) e (by simpa [process_stream] using he)
    | messageComplete a b =>
      exact ih (by simpa [process_stream] using h) e (by simpa [process_stream] using he)

theorem filterMapEmitRequests (l : List AgentEvent) :
    (l.map RunItem.emit).filter RunItem.isRequest = [] := by
  induction l with
  | nil => rfl
  | cons a l ih => simp [RunItem.isRequest, ih]

theorem filterMapEmitInvokes (l : List AgentEvent) :
    (l.map RunItem.emit).filter RunItem.isInvoke = [] := by
  induction l with
  | nil => rfl
  | cons a l ih => simp [RunItem.isInvoke, ih]

theorem filterMapEmitInvokeProj (l : List AgentEvent) :
    (l.map RunItem.emit).filterMap invokeProj = [] := by
  induction l with
  | nil => rfl
  | cons a l ih => simp [invokeProj, ih]

theorem turnToolItemsCons (invoke : String → ArgValue → ToolResult)
    (tc : ToolCall) (rest : List ToolCall) :
    turnToolItems invoke (tc :: rest) =
      [RunItem.emit (.toolCallStart tc.call_id tc.name tc.arguments),
        RunItem.invokeTool tc.name tc.arguments,
        RunItem.emit (.toolCallComplete tc.call_id tc.name (invoke tc.name tc.arguments))]
        ++ turnToolItems invoke rest := rfl

theorem toolItemsRequests (invoke : String → ArgValue → ToolResult)
    (tcs : List ToolCall) :
    (turnToolItems invoke tcs).filter RunItem.isRequest = [] := by
  induction tcs with
  | nil => rfl
  | cons tc rest ih =>
    rw [turnToolItemsCons, List.filter_append, ih]
    rfl

theorem toolItemsInvokeProj (invoke : String → ArgValue → ToolResult)
    (tcs : List ToolCall) :
    (turnToolItems invoke tcs).filterMap invokeProj =
      tcs.map (fun tc => (tc.name, tc.arguments)) := by
  induction tcs with
  | nil => rfl
  | cons tc rest ih =>
    rw [turnToolItemsCons, List.filterMap_append, ih]
    rfl

theorem toolItemsNoErrorEmit (invoke : String → ArgValue → ToolResult)
    (tcs : List ToolCall) :
    (turnToolItems invoke tcs).filter RunItem.isErrorEmit = [] := by
  induction tcs with
  | nil => rfl
  | cons tc rest ih =>
    rw [turnToolItemsCons, List.filter_append, ih]
    rfl

theorem textEmitsNoErrorEmit (l : List AgentEvent)
    (h : ∀ e ∈ l, e.isTextDelta = true) :
    (l.map RunItem.emit).filter RunItem.isErrorEmit = [] := by
  induction l with
  | nil => rfl
  | cons a l ih =>
    have ha := h a (List.mem_cons_self a l)
    have hae : a.isAgentError = false := by
      cases a <;> simp_all [AgentEvent.isTextDelta, AgentEvent.isAgentError]
    have ihl := ih (fun e he => h e (List.mem_cons_of_mem a he))
    simp [RunItem.isErrorEmit, hae, ihl]

/-- C6: a turn whose backend stream carries an Error event makes the
orchestrator emit exactly one error lifecycle event and terminate the
run at once: the transcript is left exactly as it was at the start of
the turn (no assistant and no tool-result message), nothing but text
fragments preceded the error emission, no executor invocation happens,
and no further backend request is made. -/
theorem agentic_loop_error_terminates_run (backend : Nat → List StreamEvent)
    (invoke : String → ArgValue → ToolResult) (fuel turn : Nat)
    (msgs : List ContextMessage)
    (herr : (process_stream (backend turn)).errored = true) :
    agentic_loop backend invoke (fuel + 1) turn msgs =
      ⟨RunItem.request turn ::
          (process_stream (backend turn)).emitted.map RunItem.emit,
        msgs, .errored⟩
    ∧ ((process_stream (backend turn)).emitted.filter
        AgentEvent.isAgentError).length = 1
    ∧ (∀ e ∈ (process_stream (backend turn)).emitted,
        e.isTextDelta = true ∨ e.isAgentError = true)
    ∧ ((RunItem.request turn ::
          (process_stream (backend turn)).emitted.map RunItem.emit).filter
        RunItem.isRequest).length = 1
    ∧ (RunItem.request turn ::
          (process_stream (backend turn)).emitted.map RunItem.emit).filterMap
        invokeProj = [] := by
  obtain ⟨h1, h2⟩ := processStreamErrorShape (backend turn) herr
  refine ⟨?_, h1, h2, ?_, ?_⟩
  · simp [agentic_loop, herr]
  · simp [List.filter_cons, RunItem.isRequest, filterMapEmitRequests]
  · simp [List.filterMap_cons, invokeProj, filterMapEmitInvokeProj]

/-- C6 witness: one turn against a backend whose stream is a single
error event. -/
theorem agentic_loop_error_terminates_run_witness :
    agentic_loop (fun _ => [StreamEvent.errorEvent "boom"])
        (fun _ _ => ⟨true, "ok", ""⟩) 1 0 [] =
      ⟨RunItem.request 0 ::
          (process_stream ((fun _ => [StreamEvent.errorEvent "boom"]) 0)).emitted.map
            RunItem.emit,
        [], .errored⟩
    ∧ ((process_stream ((fun _ => [StreamEvent.errorEvent "boom"]) 0)).emitted.filter
        AgentEvent.isAgentError).length = 1
    ∧ (∀ e ∈ (process_stream ((fun _ => [StreamEvent.errorEvent "boom"]) 0)).emitted,
        e.isTextDelta = true ∨ e.isAgentError = true)
    ∧ ((RunItem.request 0 ::
          (process_stream ((fun _ => [StreamEvent.errorEvent "boom"]) 0)).emitted.map
            RunItem.emit).filter RunItem.isRequest).length = 1
    ∧ (RunItem.request 0 ::
          (process_stream ((fun _ => [StreamEvent.errorEvent "boom"]) 0)).emitted.map
            RunItem.emit).filterMap invokeProj = [] :=
  agentic_loop_error_terminates_run (fun _ => [StreamEvent.errorEvent "boom"])
    (fun _ _ => ⟨true, "ok", ""⟩) 0 0 [] (by rfl)

theorem agenticLoopRequestsLe (backend : Nat → List StreamEvent)
    (invoke : String → ArgValue → ToolResult) :
    ∀ (fuel turn : Nat) (msgs : List ContextMessage),
      (((agentic_loop backend invoke fuel turn msgs).trace.filter
        RunItem.isRequest).length) ≤ fuel := by
  intro fuel
  induction fuel with
  | zero => intro turn msgs; simp [agentic_loop]
  | succ fuel ih =>
    intro turn msgs
    by_cases herr : (process_stream (backend turn)).errored
    · simp [agentic_loop, herr, List.filter_cons, RunItem.isRequest,
        filterMapEmitRequests]
    · by_cases htc : (process_stream (backend turn)).toolCalls.isEmpty
      · by_cases hrt : (process_stream (backend turn)).responseText = ""
        · simp [agentic_loop, herr, htc, hrt, List.filter_cons, RunItem.isRequest,
            filterMapEmitRequests]
        · simp [agentic_loop, herr, htc, hrt, List.filter_cons, List.filter_append,
            RunItem.isRequest, filterMapEmitRequests]
      · by_cases hrt : (process_stream (backend turn)).responseText = ""
        · have hrec := ih (turn + 1)
          simp [agentic_loop, herr, htc, hrt, List.filter_cons, List.filter_append,
            RunItem.isRequest, filterMapEmitRequests, toolItemsRequests]
          exact hrec _
        · have hrec := ih (turn + 1)
          simp [agentic_loop, herr, htc, hrt, List.filter_cons, List.filter_append,
            RunItem.isRequest, filterMapEmitRequests, toolItemsRequests]
          exact hrec _

/-- C5: the orchestrator loop makes at most N backend requests for any
configured turn budget N of at least 1; and with budget 1 against a
backend that requests tool calls on every turn and never errors, the
run makes exactly one backend request, invokes exactly the first
turn's collected tool calls in order, emits no error lifecycle event,
and terminates with the max-turns reason. -/
theorem agentic_loop_turn_budget :
    (∀ (backend : Nat → List StreamEvent) (invoke : String → ArgValue → ToolResult)
      (N turn : Nat) (msgs : List ContextMessage), 1 ≤ N →
      (((agentic_loop backend invoke N turn msgs).trace.filter
        RunItem.isRequest).length) ≤ N)
    ∧ (∀ (backend : Nat → List StreamEvent) (invoke : String → ArgValue → ToolResult)
      (turn : Nat) (msgs : List ContextMessage),
      (∀ t, (process_stream (backend t)).errored = false) →
      (∀ t, (process_stream (backend t)).toolCalls ≠ []) →
      (agentic_loop backend invoke 1 turn msgs).reason = RunReason.maxTurnsReached
      ∧ (((agentic_loop backend invoke 1 turn msgs).trace.filter
          RunItem.isRequest).length) = 1
      ∧ (agentic_loop backend invoke 1 turn msgs).trace.filterMap invokeProj =
          (process_stream (backend turn)).toolCalls.map
            (fun tc => (tc.name, tc.arguments))
      ∧ ((agentic_loop backend invoke 1 turn msgs).trace.filter
          RunItem.isErrorEmit) = []) := by
  constructor
  · intro backend invoke N turn msgs _
    exact agenticLoopRequestsLe backend invoke N turn msgs
  · intro backend invoke turn msgs hnoerr htc
    have herr := hnoerr turn
    have htcne := htc turn
    have hem : (process_stream (backend turn)).toolCalls.isEmpty = false := by
      cases h : (process_stream (backend turn)).toolCalls with
      | nil => exact absurd h htcne
      | cons a l => rfl
    have htext := processStreamNoErrorShape (backend turn) herr
    have htextEmit := textEmitsNoErrorEmit _ htext
    by_cases hrt : (process_stream (backend turn)).responseText = ""
    · refine ⟨?_, ?_, ?_, ?_⟩
      · simp [agentic_loop, herr, hem, hrt]
      · simp [agentic_loop, herr, hem, hrt, List.filter_cons, List.filter_append,
          RunItem.isRequest, filterMapEmitRequests, toolItemsRequests]
      · simp [agentic_loop, herr, hem, hrt, List.filterMap_cons, List.filterMap_append,
          invokeProj, filterMapEmitInvokeProj, toolItemsInvokeProj]
      · simp [agentic_loop, herr, hem, hrt, List.filter_cons, List.filter_append,
          RunItem.isErrorEmit, htextEmit, toolItemsNoErrorEmit]
    · refine ⟨?_, ?_, ?_, ?_⟩
      · simp [agentic_loop, herr, hem, hrt]
      · simp [agentic_loop, herr, hem, hrt, List.filter_cons, List.filter_append,
          RunItem.isRequest, filterMapEmitRequests, toolItemsRequests]
      · simp [agentic_loop, herr, hem, hrt, List.filterMap_cons, List.filterMap_append,
          invokeProj, filterMapEmitInvokeProj, toolItemsInvokeProj]
      · simp [agentic_loop, herr, hem, hrt, List.filter_cons, List.filter_append,
          RunItem.isErrorEmit, AgentEvent.isAgentError, htextEmit, toolItemsNoErrorEmit]

/-- C5 witness: turn budget 1 against a backend that always completes
one tool call named echo. -/
theorem agentic_loop_turn_budget_witness :
    ((((agentic_loop
        (fun _ => [StreamEvent.toolCallComplete ⟨"id1", "echo", .jsonArg (.obj [])⟩])
        (fun _ _ => ⟨true, "ok", ""⟩) 1 0 []).trace.filter
        RunItem.isRequest).length) ≤ 1)
    ∧ ((agentic_loop
        (fun _ => [StreamEvent.toolCallComplete ⟨"id1", "echo", .jsonArg (.obj [])⟩])
        (fun _ _ => ⟨true, "ok", ""⟩) 1 0 []).reason = RunReason.maxTurnsReached
      ∧ ((((agentic_loop
          (fun _ => [StreamEvent.toolCallComplete ⟨"id1", "echo", .jsonArg (.obj [])⟩])
          (fun _ _ => ⟨true, "ok", ""⟩) 1 0 []).trace.filter
          RunItem.isRequest).length) = 1)
      ∧ (agentic_loop
          (fun _ => [StreamEvent.toolCallComplete ⟨"id1", "echo", .jsonArg (.obj [])⟩])
          (fun _ _ => ⟨true, "ok", ""⟩) 1 0 []).trace.filterMap invokeProj =
          (process_stream
            ((fun _ => [StreamEvent.toolCallComplete
              ⟨"id1", "echo", ArgValue.jsonArg (Json.obj [])⟩]) 0)).toolCalls.map
            (fun tc => (tc.name, tc.arguments))
      ∧ ((agentic_loop
          (fun _ => [StreamEvent.toolCallComplete ⟨"id1", "echo", .jsonArg (.obj [])⟩])
          (fun _ _ => ⟨true, "ok", ""⟩) 1 0 []).trace.filter
          RunItem.isErrorEmit) = []) :=
  ⟨agentic_loop_turn_budget.1
      (fun _ => [StreamEvent.toolCallComplete ⟨"id1", "echo", .jsonArg (.obj [])⟩])
      (fun _ _ => ⟨true, "ok", ""⟩) 1 0 [] (by omega),
    agentic_loop_turn_budget.2
      (fun _ => [StreamEvent.toolCallComplete ⟨"id1", "echo", .jsonArg (.obj [])⟩])
      (fun _ _ => ⟨true, "ok", ""⟩) 0 []
      (fun t => rfl)
      (fun t => by simp [process_stream])⟩
